import Mathlib

/-!
Verification of the `hindu_advisor` repository's text utilities and chat
handler (`utils.py`, `fastapi_app.py`) against its natural-language
specification.  Python strings are modelled as `List Char` / `String`;
the regular-expression substitutions of `clean_response_text` are
translated into explicit left-to-right scanners with the same
(leftmost, non-overlapping, greedy) semantics; `re`'s `\s` and Python's
`str.strip` are modelled with the six ASCII whitespace characters.
-/

/-- ASCII whitespace, the characters `\s` matches and `str.strip` removes. -/
def isSpace (c : Char) : Bool :=
  c == ' ' || c == '\t' || c == '\n' || c == '\r' || c == '\x0b' || c == '\x0c'

/-- Space or tab, the class `[ \t]` of `clean_response_text`. -/
def isSpTab (c : Char) : Bool :=
  c == ' ' || c == '\t'

/-- ASCII upper-case letter, the class `[A-Z]`. -/
def isUpperAZ (c : Char) : Bool :=
  decide ('A' ≤ c) && decide (c ≤ 'Z')

/-- ASCII lower-casing, Python `str.lower` on the ASCII range. -/
def lowerChar (c : Char) : Char :=
  if 'A' ≤ c ∧ c ≤ 'Z' then Char.ofNat (c.toNat + 32) else c

/-- ASCII upper-casing, used by Python `str.capitalize`. -/
def upperChar (c : Char) : Char :=
  if 'a' ≤ c ∧ c ≤ 'z' then Char.ofNat (c.toNat - 32) else c

/-- Model of `text.replace('***', '**')`: leftmost non-overlapping replacement. -/
def R3 : List Char → List Char
  | a :: b :: c :: rest =>
    if a = '*' ∧ b = '*' ∧ c = '*' then '*' :: '*' :: R3 rest
    else a :: R3 (b :: c :: rest)
  | l => l

/-- Model of `text.replace('****', '**')`. -/
def R4 : List Char → List Char
  | a :: b :: c :: d :: rest =>
    if a = '*' ∧ b = '*' ∧ c = '*' ∧ d = '*' then '*' :: '*' :: R4 rest
    else a :: R4 (b :: c :: d :: rest)
  | l => l

/-- Model of `text.replace('*****', '**')`. -/
def R5 : List Char → List Char
  | a :: b :: c :: d :: e :: rest =>
    if a = '*' ∧ b = '*' ∧ c = '*' ∧ d = '*' ∧ e = '*' then '*' :: '*' :: R5 rest
    else a :: R5 (b :: c :: d :: e :: rest)
  | l => l

/-- Model of `re.sub(r'^\*\*\*([^*])', r'• \1', text, flags=re.MULTILINE)`.
The flag records whether the scanner stands at a line start. -/
def Bgo (st : Bool) : List Char → List Char
  | a :: b :: c :: d :: rest =>
    if st ∧ a = '*' ∧ b = '*' ∧ c = '*' ∧ d ≠ '*' then
      '•' :: ' ' :: d :: Bgo (d = '\n') rest
    else a :: Bgo (a = '\n') (b :: c :: d :: rest)
  | a :: l => a :: Bgo (a = '\n') l
  | [] => []

/-- One whitespace run as `re.sub(r'\n\s*\n\s*\n+', '\n\n', text)` rewrites
it: a maximal `\s`-run containing at least three newlines is matched from
its first to its last newline and that span becomes exactly two newlines. -/
def flushRun (buf : List Char) : List Char :=
  if 3 ≤ buf.count '\n' then
    buf.takeWhile (fun c => c ≠ '\n') ++ '\n' :: '\n' ::
      (buf.reverse.takeWhile (fun c => c ≠ '\n')).reverse
  else buf

/-- Model of `re.sub(r'\n\s*\n\s*\n+', '\n\n', text)`, buffering the current
whitespace run in `buf`. -/
def W1go (buf : List Char) : List Char → List Char
  | [] => flushRun buf
  | c :: cs =>
    if isSpace c then W1go (buf ++ [c]) cs
    else flushRun buf ++ c :: W1go [] cs

/-- Model of `re.sub(r'[ \t]+', ' ', text)`: the flag records whether the scanner is
inside a space/tab run whose single replacement space was already emitted. -/
def W2go (b : Bool) : List Char → List Char
  | [] => []
  | c :: cs =>
    if isSpTab c then (if b then W2go true cs else ' ' :: W2go true cs)
    else c :: W2go false cs

/-- Model of `re.sub(r'^\s+', '', text, flags=re.MULTILINE)`: whitespace runs that
begin at a line start are dropped. -/
def W3go (st : Bool) : List Char → List Char
  | [] => []
  | c :: cs =>
    if st ∧ isSpace c then W3go true cs
    else c :: W3go (c = '\n') cs

/-- Model of `re.sub(r'\*\*\s*\*\*', '**', text)` with fuel (one unit per scan
position; `l.length` always suffices).  `\s*` is greedy, and shrinking it
cannot expose a `*`, so the match at a position exists iff two stars, a
maximal whitespace run, and two further stars follow. -/
def starPairF : Nat → List Char → List Char
  | 0, l => l
  | n + 1, a :: b :: rest =>
    if a = '*' ∧ b = '*' ∧ ['*', '*'].isPrefixOf (rest.dropWhile isSpace) then
      '*' :: '*' :: starPairF n ((rest.dropWhile isSpace).drop 2)
    else a :: starPairF n (b :: rest)
  | _ + 1, l => l

/-- Model of `re.sub(r'\*\*\s*\*\*', '**', text)`. -/
def starPair (l : List Char) : List Char := starPairF l.length l

/-- Model of `re.sub(r'\*\*([^*]+)\*\*\*', r'**\1**', text)` with fuel (one unit per
scan position; `l.length` always suffices). -/
def starTrailF : Nat → List Char → List Char
  | 0, l => l
  | n + 1, a :: b :: rest =>
    if a = '*' ∧ b = '*' ∧ rest.takeWhile (fun c => c ≠ '*') ≠ [] ∧
        ['*', '*', '*'].isPrefixOf (rest.dropWhile (fun c => c ≠ '*')) then
      '*' :: '*' :: (rest.takeWhile (fun c => c ≠ '*') ++ '*' :: '*' ::
        starTrailF n ((rest.dropWhile (fun c => c ≠ '*')).drop 3))
    else a :: starTrailF n (b :: rest)
  | _ + 1, l => l

/-- Model of `re.sub(r'\*\*([^*]+)\*\*\*', r'**\1**', text)`. -/
def starTrail (l : List Char) : List Char := starTrailF l.length l

/-- Model of `re.sub(r'\.([A-Z])', r'. \1', text)`. -/
def Pgo : List Char → List Char
  | a :: b :: rest =>
    if a = '.' ∧ isUpperAZ b then '.' :: ' ' :: b :: Pgo rest
    else a :: Pgo (b :: rest)
  | l => l

/-- Python `str.strip()`. -/
def stripB (l : List Char) : List Char :=
  (((l.dropWhile isSpace).reverse.dropWhile isSpace).reverse)

/-- The whole body of `clean_response_text` on the character list, the
substitutions applied in source order. -/
def cleanList (l : List Char) : List Char :=
  stripB (Pgo (starTrail (starPair (W3go true (W2go false (W1go []
    (Bgo true (R5 (R4 (R3 l))))))))))

/-- Model of `utils.clean_response_text`. -/
def clean_response_text (text : String) : String :=
  if text = "" then text else String.mk (cleanList text.data)

/-- Python's substring test `pat in text` on character lists. -/
def hasSub (pat : List Char) : List Char → Bool
  | [] => pat.isEmpty
  | c :: cs => pat.isPrefixOf (c :: cs) || hasSub pat cs

/-- Python `str.lower` (ASCII model). -/
def pyLower (s : String) : String := String.mk (s.data.map lowerChar)

/-- Python `w.capitalize()` (ASCII model): first character upper-cased, the
rest lower-cased. -/
def pyCapitalize (w : String) : String :=
  match w.data with
  | [] => ""
  | c :: cs => String.mk (upperChar c :: cs.map lowerChar)

/-- The 32 characters of Python's `string.punctuation`. -/
def punctuationChars : List Char :=
  "!\"#$%&\x27()*+,-./:;<=>?@[\\]^_`\x7b|\x7d~".data

/-- Buffered splitter behind `pySplit`. -/
def splitGo (buf : List Char) : List Char → List String
  | [] => if buf.isEmpty then [] else [String.mk buf.reverse]
  | c :: cs =>
    if isSpace c then
      if buf.isEmpty then splitGo [] cs
      else String.mk buf.reverse :: splitGo [] cs
    else splitGo (c :: buf) cs

/-- Python `str.split()` with no argument: split on whitespace runs,
dropping empty pieces. -/
def pySplit (s : String) : List String := splitGo [] s.data

/-- Model of `utils._clean_query`: remove punctuation, strip, lower-case. -/
def pyCleanQuery (query : String) : String :=
  String.mk ((stripB (query.data.filter
    (fun c => !(punctuationChars.contains c)))).map lowerChar)

/-- Model of `utils.GREETINGS`. -/
def GREETINGS : List String :=
  ["hi", "hello", "hey", "namaste", "yo", "pranam", "jai shree ram",
   "om namah shivaya", "radhe radhe", "good morning", "good afternoon",
   "good evening"]

/-- Model of `utils.TASK_KEYWORDS`. -/
def TASK_KEYWORDS : List String :=
  ["dharma", "karma", "moksha", "atman", "brahman", "yoga", "meditation",
   "bhakti", "jnana", "seva",
   "stress", "anxiety", "fear", "sadness", "anger", "grief", "purpose",
   "meaning of life", "suffering",
   "bhagavad gita", "veda", "upanishad", "purana", "ramayana", "mahabharata",
   "scripture", "text", "shastra",
   "guidance", "solution", "advice", "teachings", "principles", "philosophy",
   "answer", "explain", "meaning",
   "table", "format", "chart", "show", "give", "list", "bullet", "points",
   "itemize", "enumerate"]

/-- Model of `utils.FORMATTING_KEYWORDS`. -/
def FORMATTING_KEYWORDS : List String :=
  ["table", "tabular", "chart", "format", "list", "bullet", "points",
   "itemize", "enumerate", "in a table", "as a table"]

/-- The filler words of `utils.is_formatting_request` (the source lists
`"me"` twice). -/
def fillerWords : List String :=
  ["in", "a", "as", "give", "me", "show", "it", "that", "please", "can",
   "you", "provide", "the", "an", "this", "my", "your", "for", "me"]

/-- Model of `utils.is_greeting`. -/
def is_greeting (query : String) : Bool :=
  if query = "" then false
  else
    let cleaned := pyCleanQuery query
    let words := pySplit cleaned
    (GREETINGS.contains cleaned && decide (words.length ≤ 3)) &&
      !(TASK_KEYWORDS.any (fun k => hasSub k.data cleaned.data))

/-- Model of `utils.is_formatting_request`. -/
def is_formatting_request (query : String) : Bool :=
  if query = "" then false
  else
    let cleaned := pyCleanQuery query
    let words := pySplit cleaned
    if !(FORMATTING_KEYWORDS.any (fun k => hasSub k.data cleaned.data)) then
      false
    else
      decide ((words.filter (fun w =>
        !(FORMATTING_KEYWORDS.contains w) && !(fillerWords.contains w))).length ≤ 1)

/-- The category table of `utils.extract_spiritual_concept`, in declaration
order. -/
def concepts : List (String × List String) :=
  [("dharma", ["dharma", "duty", "righteousness"]),
   ("karma", ["karma", "action", "consequence", "karma yoga"]),
   ("moksha", ["moksha", "liberation", "salvation", "enlightenment"]),
   ("atman", ["atman", "soul", "self"]),
   ("brahman", ["brahman", "ultimate reality", "absolute truth"]),
   ("yoga", ["yoga", "meditation", "union", "asanas"]),
   ("bhakti", ["bhakti", "devotion", "bhakti yoga"]),
   ("jnana", ["jnana", "knowledge", "wisdom", "jnana yoga"]),
   ("seva", ["seva", "selfless service"]),
   ("reincarnation", ["reincarnation", "rebirth", "samsara"]),
   ("maya", ["maya", "illusion", "worldly illusion"]),
   ("nirvana", ["nirvana", "spiritual liberation"]),
   ("guna", ["guna", "qualities", "modes of nature"]),
   ("sanskara", ["sanskara", "impressions", "mental imprints"]),
   ("sattva", ["sattva", "purity", "goodness"]),
   ("rajas", ["rajas", "passion", "activity"]),
   ("tamas", ["tamas", "ignorance", "darkness"])]

/-- The category table of `utils.extract_life_problem`, in declaration
order. -/
def problems : List (String × List String) :=
  [("stress", ["stress", "tension", "anxiety", "worry", "overwhelmed", "pressure"]),
   ("anger", ["anger", "frustration", "irritation", "rage", "resentment"]),
   ("grief", ["grief", "loss", "sadness", "sorrow", "bereavement", "heartbreak"]),
   ("purpose", ["purpose", "meaning of life", "direction", "aim", "goal",
                "why am i here", "lack of direction"]),
   ("fear", ["fear", "insecurity", "doubt", "apprehension", "courage", "hesitation"]),
   ("relationships", ["relationship", "family", "friends", "love", "conflict",
                      "breakup", "marriage", "loneliness", "social issues"]),
   ("suffering", ["suffering", "pain", "hardship", "adversity", "misery", "struggle"]),
   ("decision making", ["decision", "choice", "dilemma", "confused",
                        "uncertainty", "indecision"]),
   ("materialism", ["materialism", "attachment", "desire", "greed"]),
   ("ego", ["ego", "pride", "self-importance", "arrogance"]),
   ("depression", ["depression", "despair", "hopelessness", "melancholy"])]

/-- The category table of `utils.extract_scripture_source`, in declaration
order. -/
def scriptureSources : List (String × List String) :=
  [("bhagavad gita", ["bhagavad gita", "gita", "bhagwad geeta"]),
   ("veda", ["veda", "vedas", "rigveda", "yajurveda", "samaveda", "atharvaveda"]),
   ("upanishad", ["upanishad", "upanishads"]),
   ("purana", ["purana", "puranas", "vishnu purana", "bhagavata purana",
               "garuda purana", "skanda purana"]),
   ("ramayana", ["ramayana", "ramayan", "valmiki ramayana"]),
   ("mahabharata", ["mahabharata", "mahabharat"]),
   ("yoga sutras", ["yoga sutras", "patanjali yoga sutras", "patanjali"]),
   ("dharma shastras", ["dharma shastras", "manu smriti"]),
   ("hatha yoga pradipika", ["hatha yoga pradipika"]),
   ("shiva sutras", ["shiva sutras"]),
   ("brahma sutras", ["brahma sutras"]),
   ("vedanta", ["vedanta"])]

/-- Does some keyword of the category occur as a substring of the
lower-cased query?  (`any(k in q for k in kws)`.) -/
def catMatches (query : String) (p : String × List String) : Bool :=
  p.2.any (fun k => hasSub k.data (pyLower query).data)

/-- Model of `utils.extract_spiritual_concept`. -/
def extract_spiritual_concept (query : String) : String :=
  match concepts.find? (catMatches query) with
  | some p => p.1
  | none => "general"

/-- Model of `utils.extract_life_problem`. -/
def extract_life_problem (query : String) : String :=
  match problems.find? (catMatches query) with
  | some p => p.1
  | none => "guidance"

/-- Model of `" ".join([w.capitalize() for w in source.split()])`. -/
def capitalizeWords (s : String) : String :=
  String.intercalate " " ((pySplit s).map pyCapitalize)

/-- Model of `utils.extract_scripture_source`. -/
def extract_scripture_source (query : String) : String :=
  match scriptureSources.find? (catMatches query) with
  | some p => capitalizeWords p.1
  | none => "Hindu scriptures"

/-- Model of `utils.contains_table_request`. -/
def contains_table_request (query : String) : Bool :=
  FORMATTING_KEYWORDS.any (fun k => hasSub k.data (pyLower query).data)

/-- A Python value that may sit in a suggestions dict: a string or a
non-string (modelled by an integer). -/
inductive PyVal where
  | str : String → PyVal
  | int : Int → PyVal
deriving DecidableEq

/-- Model of `utils.clean_suggestions`: dicts are insertion-ordered key/value lists. -/
def clean_suggestions : List (String × PyVal) → List (String × PyVal)
  | [] => []
  | (k, PyVal.str s) :: rest => (k, PyVal.str (clean_response_text s)) :: clean_suggestions rest
  | (k, v) :: rest => (k, v) :: clean_suggestions rest

/-- The value transformation `clean_suggestions` applies to each entry:
strings are cleaned, non-strings pass through. -/
def cleanVal : PyVal → PyVal
  | PyVal.str s => PyVal.str (clean_response_text s)
  | v => v

/-- The body of `fastapi_app.ChatRequest` (`session_id` is optional). -/
structure ChatRequest where
  query : String
  session_id : Option String
  format_table : Bool
deriving DecidableEq

/-- The JSON object `POST /chat` returns on success. -/
structure ChatResponse where
  answer : String
  suggestions : List (String × PyVal)
  session_id : String
deriving DecidableEq

/-- The initial suggestions dict of `handle_chat`, also its final value when
Groq is skipped: every configured auxiliary model maps to `"N/A"`. -/
def naSuggestions : List (String × PyVal) :=
  [("llama", PyVal.str "N/A"), ("mixtral", PyVal.str "N/A"),
   ("gemma", PyVal.str "N/A")]

/-- Model of `request.session_id or f"session_{uuid.uuid4().hex}"`: Python `or`
falls through on `None` and on the empty string; `freshHex` stands for the
random `uuid4().hex`. -/
def sessionIdOf (req : ChatRequest) (freshHex : String) : String :=
  match req.session_id with
  | some s => if s = "" then "session_" ++ freshHex else s
  | none => "session_" ++ freshHex

/-- Model of `fastapi_app.handle_chat`.  The external collaborators (the RAG chain
with its LLM, retriever and history, the Groq aggregator, and the merge
call) are opaque services passed as parameters; the fallible ones return
`Except`, and an error anywhere in the `try` block surfaces as the HTTP 500
branch (`Except.error`). -/
def handle_chat (groqKey : Option String) (freshHex : String)
    (ragInvoke : String → String → String → String → String → Except String String)
    (groqFetch : String → String → String → String → String → List (String × PyVal))
    (mergeAnswers : String → List (String × PyVal) → String → String → String →
      Bool → Except String String)
    (req : ChatRequest) : Except String ChatResponse :=
  let session_id := sessionIdOf req freshHex
  let format_as_table := contains_table_request req.query
  let spiritual_concept := extract_spiritual_concept req.query
  let life_problem := extract_life_problem req.query
  let scripture_source := extract_scripture_source req.query
  match ragInvoke req.query spiritual_concept life_problem scripture_source session_id with
  | Except.error e => Except.error ("Internal server error: " ++ e)
  | Except.ok raw =>
    let rag_answer := clean_response_text raw
    let suggestions :=
      match groqKey with
      | some k =>
        if k = "" then naSuggestions
        else clean_suggestions (groqFetch req.query k spiritual_concept
          life_problem scripture_source)
      | none => naSuggestions
    match mergeAnswers rag_answer suggestions spiritual_concept life_problem
        scripture_source format_as_table with
    | Except.error e => Except.error ("Internal server error: " ++ e)
    | Except.ok final =>
      Except.ok ⟨clean_response_text final, suggestions, session_id⟩

/-- A concrete always-succeeding RAG oracle, for closed instances. -/
def ragOracleK : String → String → String → String → String → Except String String :=
  fun _ _ _ _ _ => Except.ok "rag answer"

/-- A concrete Groq oracle, for closed instances. -/
def groqOracleK : String → String → String → String → String → List (String × PyVal) :=
  fun _ _ _ _ _ => []

/-- A concrete always-succeeding merge oracle, for closed instances. -/
def mergeOracleK : String → List (String × PyVal) → String → String → String →
    Bool → Except String String :=
  fun _ _ _ _ _ _ => Except.ok "final answer"


/-- Run-length action of `replace('***', '**')` on one maximal asterisk
run: `⌊n/3⌋` non-overlapping triples each lose one star. -/
def rf3 (n : Nat) : Nat := n - n / 3

/-- Run-length action of `replace('****', '**')` on one maximal asterisk
run: `⌊n/4⌋` non-overlapping quadruples each lose two stars. -/
def rf4 (n : Nat) : Nat := n - 2 * (n / 4)

/-- Run-length action of `replace('*****', '**')` on one maximal asterisk
run: `⌊n/5⌋` non-overlapping quintuples each lose three stars. -/
def rf5 (n : Nat) : Nat := n - 3 * (n / 5)

/-- Run-length action of the whole replace chain of `clean_response_text`
(lines 169-171 of `utils.py`), `'***'` first, then `'****'`, then
`'*****'`. -/
def collapseRunLen (n : Nat) : Nat := rf5 (rf4 (rf3 n))

/-- Rewrite each maximal run of asterisks of length `n` to `f n` asterisks,
leaving other characters unchanged; `k` counts the asterisks of the pending
run. -/
def starRunMap (f : Nat → Nat) : Nat → List Char → List Char
  | k, [] => List.replicate (f k) '*'
  | k, c :: cs =>
    if c = '*' then starRunMap f (k + 1) cs
    else List.replicate (f k) '*' ++ c :: starRunMap f 0 cs

/-- Adjacency relation: no whitespace directly after a newline (the output
shape `re.sub(r'^\s+', '', ..., re.MULTILINE)` guarantees). -/
def nlOk (a b : Char) : Prop := a = '\n' → isSpace b = false

/-- Adjacency relation: no two consecutive literal spaces (the output shape
`re.sub(r'[ \t]+', ' ', ...)` guarantees, together with tab-freeness). -/
def noSS (a b : Char) : Prop := ¬(a = ' ' ∧ b = ' ')

/-- Adjacency relation: no upper-case letter directly after a period (the
output shape `re.sub(r'\.([A-Z])', r'. \1', ...)` guarantees). -/
def noPU (a b : Char) : Prop := ¬(a = '.' ∧ isUpperAZ b = true)

/-! ## Helper lemmas -/

/-- Lemma: `List.find?` returns the element at the first index satisfying the
predicate: the loop-with-early-return of the three extractors. -/
theorem find?_first_match {α : Type} (p : α → Bool) :
    ∀ (l : List α) (i : Nat) (h : i < l.length),
      p (l.get ⟨i, h⟩) = true →
      (∀ j, (hj : j < i) → p (l.get ⟨j, Nat.lt_trans hj h⟩) = false) →
      l.find? p = some (l.get ⟨i, h⟩)
  | a :: t, 0, _, hp, _ => List.find?_cons_of_pos _ hp
  | a :: t, i + 1, h, hp, hprev => by
    have ha : p a = false := hprev 0 (Nat.succ_pos i)
    have ht := find?_first_match p t i (Nat.lt_of_succ_lt_succ h) hp
      (fun j hj => hprev (j + 1) (Nat.succ_lt_succ hj))
    rw [List.find?_cons_of_neg _ (by simp [ha])]
    exact ht

/-! ## C3: the extractors are total with fixed finite ranges -/

/-- The label set of `extract_spiritual_concept`. -/
def conceptLabels : List String :=
  ["dharma", "karma", "moksha", "atman", "brahman", "yoga", "bhakti", "jnana",
   "seva", "reincarnation", "maya", "nirvana", "guna", "sanskara", "sattva",
   "rajas", "tamas", "general"]

/-- The label set of `extract_life_problem`. -/
def problemLabels : List String :=
  ["stress", "anger", "grief", "purpose", "fear", "relationships", "suffering",
   "decision making", "materialism", "ego", "depression", "guidance"]

/-- The label set of `extract_scripture_source`. -/
def sourceLabels : List String :=
  ["Bhagavad Gita", "Veda", "Upanishad", "Purana", "Ramayana", "Mahabharata",
   "Yoga Sutras", "Dharma Shastras", "Hatha Yoga Pradipika", "Shiva Sutras",
   "Brahma Sutras", "Vedanta", "Hindu scriptures"]

/-- C3: for every query string the three extractors return exactly one label
from their fixed finite label sets (being total Lean functions, they cannot
raise), and when no keyword of any of an extractor's categories matches the
lower-cased query it returns its default ("general", "guidance",
"Hindu scriptures" respectively). -/
theorem extractors_total_and_defaults (q : String) :
    extract_spiritual_concept q ∈ conceptLabels ∧
    extract_life_problem q ∈ problemLabels ∧
    extract_scripture_source q ∈ sourceLabels ∧
    (concepts.any (catMatches q) = false → extract_spiritual_concept q = "general") ∧
    (problems.any (catMatches q) = false → extract_life_problem q = "guidance") ∧
    (scriptureSources.any (catMatches q) = false →
      extract_scripture_source q = "Hindu scriptures") := by
  have hc : ∀ p ∈ concepts, p.1 ∈ conceptLabels := by decide
  have hp : ∀ p ∈ problems, p.1 ∈ problemLabels := by decide
  have hs : ∀ p ∈ scriptureSources, capitalizeWords p.1 ∈ sourceLabels := by decide
  refine ⟨?_, ?_, ?_, ?_, ?_, ?_⟩
  · rw [extract_spiritual_concept]
    cases hf : concepts.find? (catMatches q) with
    | none => simp [conceptLabels]
    | some p => exact hc p (List.mem_of_find?_eq_some hf)
  · rw [extract_life_problem]
    cases hf : problems.find? (catMatches q) with
    | none => simp [problemLabels]
    | some p => exact hp p (List.mem_of_find?_eq_some hf)
  · rw [extract_scripture_source]
    cases hf : scriptureSources.find? (catMatches q) with
    | none => simp [sourceLabels]
    | some p => exact hs p (List.mem_of_find?_eq_some hf)
  · intro hno
    have : concepts.find? (catMatches q) = none :=
      List.find?_eq_none.mpr (List.any_eq_false.mp hno)
    simp [extract_spiritual_concept, this]
  · intro hno
    have : problems.find? (catMatches q) = none :=
      List.find?_eq_none.mpr (List.any_eq_false.mp hno)
    simp [extract_life_problem, this]
  · intro hno
    have : scriptureSources.find? (catMatches q) = none :=
      List.find?_eq_none.mpr (List.any_eq_false.mp hno)
    simp [extract_scripture_source, this]

/-- Witness for C3 at the concrete query `"zzz"`, which matches no keyword. -/
theorem extractors_total_and_defaults_witness :
    extract_spiritual_concept "zzz" = "general" ∧
    extract_life_problem "zzz" = "guidance" ∧
    extract_scripture_source "zzz" = "Hindu scriptures" :=
  ⟨(extractors_total_and_defaults "zzz").2.2.2.1 (by decide),
   (extractors_total_and_defaults "zzz").2.2.2.2.1 (by decide),
   (extractors_total_and_defaults "zzz").2.2.2.2.2 (by decide)⟩

/-! ## C4: first-match-wins in declaration order -/

/-- C4: each extractor iterates its category table in declaration order and
returns the (formatted) name of the first category one of whose keywords is
a substring of the lower-cased query: if the category at index `i` matches
and no earlier one does, it is returned. -/
theorem extractors_first_match :
    (∀ (q : String) (i : Nat) (h : i < concepts.length),
      catMatches q (concepts.get ⟨i, h⟩) = true →
      (∀ j, (hj : j < i) → catMatches q (concepts.get ⟨j, Nat.lt_trans hj h⟩) = false) →
      extract_spiritual_concept q = (concepts.get ⟨i, h⟩).1) ∧
    (∀ (q : String) (i : Nat) (h : i < problems.length),
      catMatches q (problems.get ⟨i, h⟩) = true →
      (∀ j, (hj : j < i) → catMatches q (problems.get ⟨j, Nat.lt_trans hj h⟩) = false) →
      extract_life_problem q = (problems.get ⟨i, h⟩).1) ∧
    (∀ (q : String) (i : Nat) (h : i < scriptureSources.length),
      catMatches q (scriptureSources.get ⟨i, h⟩) = true →
      (∀ j, (hj : j < i) →
        catMatches q (scriptureSources.get ⟨j, Nat.lt_trans hj h⟩) = false) →
      extract_scripture_source q = capitalizeWords (scriptureSources.get ⟨i, h⟩).1) := by
  refine ⟨fun q i h hp hprev => ?_, fun q i h hp hprev => ?_, fun q i h hp hprev => ?_⟩
  · rw [extract_spiritual_concept, find?_first_match (catMatches q) concepts i h hp hprev]
  · rw [extract_life_problem, find?_first_match (catMatches q) problems i h hp hprev]
  · rw [extract_scripture_source, find?_first_match (catMatches q) scriptureSources i h hp hprev]

/-- Witness for C4: `"what is maya"` matches only the eleventh concept
category, `"pure anger"` only the second problem category, and
`"the upanishads say"` only the third scripture category. -/
theorem extractors_first_match_witness :
    extract_spiritual_concept "what is maya" = "maya" ∧
    extract_life_problem "pure anger" = "anger" ∧
    extract_scripture_source "the upanishads say" = "Upanishad" :=
  ⟨extractors_first_match.1 "what is maya" 10 (by decide) (by decide) (by decide),
   extractors_first_match.2.1 "pure anger" 1 (by decide) (by decide) (by decide),
   extractors_first_match.2.2 "the upanishads say" 2 (by decide) (by decide) (by decide)⟩

/-! ## C5: characterization of is_greeting -/

/-- C5: `is_greeting` returns true iff the cleaned (punctuation-stripped,
trimmed, lower-cased) query exactly equals one of the greeting phrases, has
at most 3 words, and contains no task keyword as a substring; in particular
it accepts `"hello"` and rejects `"hello, what is karma"`. -/
theorem is_greeting_spec (q : String) :
    (is_greeting q = true ↔
      (pyCleanQuery q ∈ GREETINGS ∧ (pySplit (pyCleanQuery q)).length ≤ 3 ∧
        ∀ k ∈ TASK_KEYWORDS, hasSub k.data (pyCleanQuery q).data = false)) ∧
    is_greeting "hello" = true ∧
    is_greeting "hello, what is karma" = false := by
  refine ⟨?_, by decide, by decide⟩
  by_cases hq : q = ""
  · subst hq
    constructor
    · intro h
      exact absurd h (by decide)
    · intro ⟨hmem, _⟩
      exact absurd hmem (by decide)
  · rw [is_greeting, if_neg hq]
    simp only [Bool.and_eq_true, decide_eq_true_eq, Bool.not_eq_true',
      List.any_eq_false, List.contains, List.elem_iff, and_assoc,
      Bool.not_eq_true]

/-- Witness for C5: instantiating the characterization at `"hello"`. -/
theorem is_greeting_spec_witness :
    pyCleanQuery "hello" ∈ GREETINGS ∧
      (pySplit (pyCleanQuery "hello")).length ≤ 3 ∧
      ∀ k ∈ TASK_KEYWORDS, hasSub k.data (pyCleanQuery "hello").data = false :=
  (is_greeting_spec "hello").1.mp (by decide)

/-! ## C6: characterization of is_formatting_request -/

/-- C6: `is_formatting_request` returns true iff the cleaned query contains
at least one formatting keyword as a substring and at most one word remains
after removing formatting keywords and filler words; in particular it
accepts `"show it in a table"` and rejects
`"show me the bhagavad gita's view on karma in a table"`. -/
theorem is_formatting_request_spec (q : String) :
    (is_formatting_request q = true ↔
      ((∃ k ∈ FORMATTING_KEYWORDS, hasSub k.data (pyCleanQuery q).data = true) ∧
        ((pySplit (pyCleanQuery q)).filter (fun w =>
          !(FORMATTING_KEYWORDS.contains w) && !(fillerWords.contains w))).length ≤ 1)) ∧
    is_formatting_request "show it in a table" = true ∧
    is_formatting_request "show me the bhagavad gita\x27s view on karma in a table" = false := by
  refine ⟨?_, by decide, by decide⟩
  by_cases hq : q = ""
  · subst hq
    constructor
    · intro h
      exact absurd h (by decide)
    · intro ⟨⟨k, hk, hsub⟩, _⟩
      have hall : ∀ k ∈ FORMATTING_KEYWORDS,
          hasSub k.data (pyCleanQuery "").data = false := by decide
      rw [hall k hk] at hsub
      cases hsub
  · rw [is_formatting_request, if_neg hq]
    by_cases hany : FORMATTING_KEYWORDS.any (fun k => hasSub k.data (pyCleanQuery q).data) = true
    · simp only [hany, Bool.not_true, if_false, decide_eq_true_eq]
      rw [List.any_eq_true] at hany
      simp [hany]
    · rw [Bool.not_eq_true] at hany
      simp only [hany, Bool.not_false, if_true]
      rw [List.any_eq_false] at hany
      constructor
      · intro h
        cases h
      · intro ⟨⟨k, hk, hsub⟩, _⟩
        exact absurd hsub (by simpa using hany k hk)

/-- Witness for C6: instantiating the characterization at
`"show it in a table"`. -/
theorem is_formatting_request_spec_witness :
    (∃ k ∈ FORMATTING_KEYWORDS,
      hasSub k.data (pyCleanQuery "show it in a table").data = true) ∧
      ((pySplit (pyCleanQuery "show it in a table")).filter (fun w =>
        !(FORMATTING_KEYWORDS.contains w) && !(fillerWords.contains w))).length ≤ 1 :=
  (is_formatting_request_spec "show it in a table").1.mp (by decide)

/-! ## C9: clean_suggestions -/

/-- C9: `clean_suggestions` keeps exactly the key set (in order), replaces
every string value by `clean_response_text` of that value, passes non-string
values through unchanged, and on the concrete dict
`{"a": "**x***", "b": 1}` yields `{"a": "**x**", "b": 1}`. -/
theorem clean_suggestions_spec (d : List (String × PyVal)) :
    (clean_suggestions d).map Prod.fst = d.map Prod.fst ∧
    (∀ k v, (k, v) ∈ d → (k, cleanVal v) ∈ clean_suggestions d) ∧
    clean_suggestions [("a", PyVal.str "**x***"), ("b", PyVal.int 1)] =
      [("a", PyVal.str "**x**"), ("b", PyVal.int 1)] := by
  refine ⟨?_, ?_, by decide⟩
  · induction d with
    | nil => rfl
    | cons kv rest ih =>
      obtain ⟨k, v⟩ := kv
      cases v with
      | str s => simpa [clean_suggestions] using ih
      | int n => simpa [clean_suggestions] using ih
  · induction d with
    | nil => intro k v h; cases h
    | cons kv rest ih =>
      intro k v h
      obtain ⟨k', v'⟩ := kv
      rcases List.mem_cons.mp h with heq | hmem
      · injection heq with h1 h2
        subst h1; subst h2
        cases v with
        | str s => exact List.mem_cons_self _ _
        | int n => exact List.mem_cons_self _ _
      · cases v' with
        | str s => exact List.mem_cons_of_mem _ (ih k v hmem)
        | int n => exact List.mem_cons_of_mem _ (ih k v hmem)

/-- Witness for C9: the entry `("a", "**x***")` of the concrete dict is
mapped to `("a", "**x**")`. -/
theorem clean_suggestions_spec_witness :
    ("a", cleanVal (PyVal.str "**x***")) ∈
      clean_suggestions [("a", PyVal.str "**x***"), ("b", PyVal.int 1)] :=
  (clean_suggestions_spec [("a", PyVal.str "**x***"), ("b", PyVal.int 1)]).2.1
    "a" (PyVal.str "**x***") (by decide)

/-! ## C10: raw substring matching, not whole-word matching -/

/-- C10: keyword matching is raw substring containment on the lower-cased
query: `contains_table_request` is true exactly when some formatting keyword
occurs as a substring (also strictly inside a longer word, as in
`"chartreuse"`), and `extract_life_problem "dangerous"` returns `"anger"`
because `"anger"` is a substring of `"dangerous"`. -/
theorem substring_matching_spec (q : String) :
    (contains_table_request q = true ↔
      ∃ k ∈ FORMATTING_KEYWORDS, hasSub k.data (pyLower q).data = true) ∧
    extract_life_problem "dangerous" = "anger" ∧
    contains_table_request "the chartreuse room" = true := by
  exact ⟨by rw [contains_table_request]; exact List.any_eq_true, by decide, by decide⟩

/-- Witness for C10: `"chart"` occurs inside `"rechart"`, so the query
counts as a table request. -/
theorem substring_matching_spec_witness : contains_table_request "rechart" = true :=
  (substring_matching_spec "rechart").1.mpr ⟨"chart", by decide, by decide⟩

/-! ## C7: /chat with the Groq key unset -/

/-- C7: when the Groq API key is unset, `handle_chat` skips the suggestion
aggregation — the result does not depend on the Groq oracle at all — and,
whenever the primary RAG and merge calls succeed, returns a success (HTTP
200) response whose suggestions mapping is keyed exactly by the configured
auxiliary model names `llama`, `mixtral`, `gemma`, every value being the
sentinel `"N/A"`. -/
theorem chat_no_groq_key_spec (freshHex a m : String)
    (rag : String → String → String → String → String → Except String String)
    (gf gf' : String → String → String → String → String → List (String × PyVal))
    (mg : String → List (String × PyVal) → String → String → String → Bool →
      Except String String)
    (req : ChatRequest)
    (hrag : rag req.query (extract_spiritual_concept req.query)
      (extract_life_problem req.query) (extract_scripture_source req.query)
      (sessionIdOf req freshHex) = Except.ok a)
    (hmg : mg (clean_response_text a) naSuggestions
      (extract_spiritual_concept req.query) (extract_life_problem req.query)
      (extract_scripture_source req.query) (contains_table_request req.query) =
        Except.ok m) :
    handle_chat none freshHex rag gf mg req =
      Except.ok ⟨clean_response_text m, naSuggestions, sessionIdOf req freshHex⟩ ∧
    handle_chat none freshHex rag gf mg req = handle_chat none freshHex rag gf' mg req := by
  constructor
  · rw [handle_chat]
    simp only [hrag, hmg]
  · rfl

/-- Witness for C7 with concrete oracles and the request
`{query := "hi", session_id := "s1"}`. -/
theorem chat_no_groq_key_spec_witness :
    handle_chat none "f00" ragOracleK groqOracleK mergeOracleK ⟨"hi", some "s1", false⟩ =
      Except.ok ⟨clean_response_text "final answer", naSuggestions, "s1"⟩ :=
  (chat_no_groq_key_spec "f00" "rag answer" "final answer" ragOracleK groqOracleK
    groqOracleK mergeOracleK ⟨"hi", some "s1", false⟩ rfl rfl).1

/-! ## C8: session id handling (amended) -/

/-- C8 counterexample: a supplied `session_id` is not always echoed back.
Python's `request.session_id or f"session_{uuid.uuid4().hex}"` treats the
supplied empty string as falsy, so the response carries a freshly generated
id (`"session_" ++ hex`) instead of the supplied `""`. -/
theorem chat_session_id_empty_cex :
    handle_chat none "0badf00d" ragOracleK groqOracleK mergeOracleK
        ⟨"hello", some "", false⟩ =
      Except.ok ⟨clean_response_text "final answer", naSuggestions, "session_0badf00d"⟩ ∧
    ("session_0badf00d" : String) ≠ "" := by
  exact ⟨rfl, by decide⟩

/-- C8 (amended): if `session_id` is omitted — or supplied as the empty
string, which Python's `or` treats as absent — a fresh generated id
`"session_" ++ hex` is used; a supplied non-empty `session_id` is used
as-is; and every success response carries exactly the session id so
chosen. -/
theorem chat_session_id_spec (groqKey : Option String) (freshHex : String)
    (rag : String → String → String → String → String → Except String String)
    (gf : String → String → String → String → String → List (String × PyVal))
    (mg : String → List (String × PyVal) → String → String → String → Bool →
      Except String String)
    (req : ChatRequest) :
    (req.session_id = none → sessionIdOf req freshHex = "session_" ++ freshHex) ∧
    (req.session_id = some "" → sessionIdOf req freshHex = "session_" ++ freshHex) ∧
    (∀ s, req.session_id = some s → s ≠ "" → sessionIdOf req freshHex = s) ∧
    (∀ resp, handle_chat groqKey freshHex rag gf mg req = Except.ok resp →
      resp.session_id = sessionIdOf req freshHex) := by
  refine ⟨?_, ?_, ?_, ?_⟩
  · intro h
    rw [sessionIdOf, h]
  · intro h
    rw [sessionIdOf, h]
    rfl
  · intro s h hs
    rw [sessionIdOf, h]
    exact if_neg hs
  · intro resp h
    simp only [handle_chat] at h
    split at h
    · cases h
    · split at h
      · cases h
      · injection h with h
        rw [← h]

/-- Witness for C8 at concrete inputs: an omitted id, an empty id and the
supplied id `"s1"`, with the response echoing the chosen id. -/
theorem chat_session_id_spec_witness :
    sessionIdOf ⟨"hi", none, false⟩ "abc" = "session_" ++ "abc" ∧
    sessionIdOf ⟨"hi", some "", false⟩ "abc" = "session_" ++ "abc" ∧
    sessionIdOf ⟨"hi", some "s1", false⟩ "abc" = "s1" ∧
    (⟨clean_response_text "final answer", naSuggestions, "s1"⟩ : ChatResponse).session_id =
      sessionIdOf ⟨"hi", some "s1", false⟩ "abc" :=
  ⟨(chat_session_id_spec none "abc" ragOracleK groqOracleK mergeOracleK
      ⟨"hi", none, false⟩).1 rfl,
   (chat_session_id_spec none "abc" ragOracleK groqOracleK mergeOracleK
      ⟨"hi", some "", false⟩).2.1 rfl,
   (chat_session_id_spec none "abc" ragOracleK groqOracleK mergeOracleK
      ⟨"hi", some "s1", false⟩).2.2.1 "s1" rfl (by decide),
   (chat_session_id_spec none "abc" ragOracleK groqOracleK mergeOracleK
      ⟨"hi", some "s1", false⟩).2.2.2 _ rfl⟩

/-! ## C2: asterisk-run collapsing (amended) -/

/-- C2 counterexample: a run of exactly four asterisks is not collapsed to
two: `replace('***', '**')` runs first and turns `"a****b"` into
`"a***b"`, which the later `replace('****', '**')` and
`replace('*****', '**')` no longer see. -/
theorem clean_collapse_four_cex :
    clean_response_text "a****b" = "a***b" ∧
    clean_response_text "a****b" ≠ "a**b" := by
  exact ⟨by decide, by decide⟩

/-! ### The replace chain acts on maximal asterisk runs by a length map -/

theorem R3_short : ∀ (l : List Char), l.length < 3 → R3 l = l
  | [], _ => rfl
  | [_], _ => rfl
  | [_, _], _ => rfl
  | _ :: _ :: _ :: _, h => by
    rw [List.length_cons, List.length_cons, List.length_cons] at h
    omega

theorem R3_step (x : Char) (xs : List Char)
    (h : ∃ c ∈ (x :: xs).take 3, c ≠ '*') : R3 (x :: xs) = x :: R3 xs :=
  match xs with
  | [] => rfl
  | [_] => rfl
  | b :: c :: rest => by
    have hcond : ¬(x = '*' ∧ b = '*' ∧ c = '*') := by
      intro ⟨h1, h2, h3⟩
      obtain ⟨cc, hmem, hne⟩ := h
      simp only [List.take_succ_cons, List.take_zero, List.mem_cons,
        List.not_mem_nil, or_false] at hmem
      rcases hmem with rfl | rfl | rfl
      · exact hne h1
      · exact hne h2
      · exact hne h3
    rw [R3, if_neg hcond]

theorem R3_cons_nonstar {d : Char} (ds : List Char) (hd : d ≠ '*') :
    R3 (d :: ds) = d :: R3 ds :=
  R3_step d ds ⟨d, by simp [List.take_succ_cons], hd⟩

theorem mem_take_append_replicate {k n : Nat} (hn : n < k) (d : Char) (ds : List Char) :
    d ∈ (List.replicate n '*' ++ d :: ds).take k := by
  rw [List.take_append_eq_append_take]
  refine List.mem_append_right _ ?_
  rw [List.length_replicate]
  obtain ⟨m, hm⟩ : ∃ m, k - n = m + 1 := ⟨k - n - 1, by omega⟩
  rw [hm, List.take_succ_cons]
  exact List.mem_cons_self _ _

theorem R3_run_small : ∀ (n : Nat) (t : List Char), n < 3 →
    (∀ c ∈ t.head?, c ≠ '*') →
    R3 (List.replicate n '*' ++ t) = List.replicate n '*' ++ R3 t
  | 0, _, _, _ => rfl
  | n + 1, [], _, _ => by
    rw [List.append_nil, show R3 [] = [] from rfl, List.append_nil]
    exact R3_short _ (by rw [List.length_replicate]; omega)
  | n + 1, d :: ds, hn, ht => by
    have hd : d ≠ '*' := ht d (by simp)
    rw [List.replicate_succ, List.cons_append,
      R3_step '*' _ ⟨d, by
        rw [← List.cons_append, ← List.replicate_succ]
        exact mem_take_append_replicate hn d ds, hd⟩,
      R3_run_small n (d :: ds) (by omega) ht, List.cons_append]

theorem R3_run : ∀ (n : Nat) (t : List Char), (∀ c ∈ t.head?, c ≠ '*') →
    R3 (List.replicate n '*' ++ t) = List.replicate (rf3 n) '*' ++ R3 t
  | 0, t, ht => R3_run_small 0 t (by omega) ht
  | 1, t, ht => R3_run_small 1 t (by omega) ht
  | 2, t, ht => R3_run_small 2 t (by omega) ht
  | m + 3, t, ht => by
    have harith : rf3 (m + 3) = rf3 m + 2 := by unfold rf3; omega
    rw [show List.replicate (m + 3) '*' ++ t = '*' :: '*' :: '*' ::
        (List.replicate m '*' ++ t) from by
      simp [List.replicate_succ]]
    rw [R3, if_pos ⟨rfl, rfl, rfl⟩, R3_run m t ht, harith,
      show List.replicate (rf3 m + 2) '*' = '*' :: '*' :: List.replicate (rf3 m) '*' from by
        rw [Nat.add_comm, List.replicate_add]; rfl,
      List.cons_append, List.cons_append]

theorem R3_runMap_aux : ∀ (l : List Char) (k : Nat),
    R3 (List.replicate k '*' ++ l) = starRunMap rf3 k l
  | [], k => by
    have h := R3_run k [] (by simp)
    rw [List.append_nil] at h
    rw [List.append_nil, h, show R3 [] = [] from rfl, List.append_nil, starRunMap]
  | c :: ls, k => by
    by_cases hc : c = '*'
    · subst hc
      rw [show List.replicate k '*' ++ '*' :: ls = List.replicate (k + 1) '*' ++ ls from by
        rw [List.replicate_succ', List.append_assoc]; rfl]
      rw [show starRunMap rf3 k ('*' :: ls) = starRunMap rf3 (k + 1) ls from by
        rw [starRunMap, if_pos rfl]]
      exact R3_runMap_aux ls (k + 1)
    · have h0 := R3_runMap_aux ls 0
      rw [show List.replicate 0 '*' ++ ls = ls from rfl] at h0
      rw [R3_run k (c :: ls) (by simpa using hc), R3_cons_nonstar ls hc, h0,
        starRunMap, if_neg hc]

theorem R3_runMap (l : List Char) : R3 l = starRunMap rf3 0 l := by
  have h := R3_runMap_aux l 0
  rwa [show List.replicate 0 '*' ++ l = l from rfl] at h

theorem R4_short : ∀ (l : List Char), l.length < 4 → R4 l = l
  | [], _ => rfl
  | [_], _ => rfl
  | [_, _], _ => rfl
  | [_, _, _], _ => rfl
  | _ :: _ :: _ :: _ :: _, h => by
    rw [List.length_cons, List.length_cons, List.length_cons, List.length_cons] at h
    omega

theorem R4_step (x : Char) (xs : List Char)
    (h : ∃ c ∈ (x :: xs).take 4, c ≠ '*') : R4 (x :: xs) = x :: R4 xs :=
  match xs with
  | [] => rfl
  | [_] => rfl
  | [_, _] => rfl
  | b :: c :: d :: rest => by
    have hcond : ¬(x = '*' ∧ b = '*' ∧ c = '*' ∧ d = '*') := by
      intro ⟨h1, h2, h3, h4⟩
      obtain ⟨cc, hmem, hne⟩ := h
      simp only [List.take_succ_cons, List.take_zero, List.mem_cons,
        List.not_mem_nil, or_false] at hmem
      rcases hmem with rfl | rfl | rfl | rfl
      · exact hne h1
      · exact hne h2
      · exact hne h3
      · exact hne h4
    rw [R4, if_neg hcond]

theorem R4_cons_nonstar {d : Char} (ds : List Char) (hd : d ≠ '*') :
    R4 (d :: ds) = d :: R4 ds :=
  R4_step d ds ⟨d, by simp [List.take_succ_cons], hd⟩

theorem R4_run_small : ∀ (n : Nat) (t : List Char), n < 4 →
    (∀ c ∈ t.head?, c ≠ '*') →
    R4 (List.replicate n '*' ++ t) = List.replicate n '*' ++ R4 t
  | 0, _, _, _ => rfl
  | n + 1, [], _, _ => by
    rw [List.append_nil, show R4 [] = [] from rfl, List.append_nil]
    exact R4_short _ (by rw [List.length_replicate]; omega)
  | n + 1, d :: ds, hn, ht => by
    have hd : d ≠ '*' := ht d (by simp)
    rw [List.replicate_succ, List.cons_append,
      R4_step '*' _ ⟨d, by
        rw [← List.cons_append, ← List.replicate_succ]
        exact mem_take_append_replicate hn d ds, hd⟩,
      R4_run_small n (d :: ds) (by omega) ht, List.cons_append]

theorem R4_run : ∀ (n : Nat) (t : List Char), (∀ c ∈ t.head?, c ≠ '*') →
    R4 (List.replicate n '*' ++ t) = List.replicate (rf4 n) '*' ++ R4 t
  | 0, t, ht => R4_run_small 0 t (by omega) ht
  | 1, t, ht => R4_run_small 1 t (by omega) ht
  | 2, t, ht => R4_run_small 2 t (by omega) ht
  | 3, t, ht => R4_run_small 3 t (by omega) ht
  | m + 4, t, ht => by
    have harith : rf4 (m + 4) = rf4 m + 2 := by unfold rf4; omega
    rw [show List.replicate (m + 4) '*' ++ t = '*' :: '*' :: '*' :: '*' ::
        (List.replicate m '*' ++ t) from by
      simp [List.replicate_succ]]
    rw [R4, if_pos ⟨rfl, rfl, rfl, rfl⟩, R4_run m t ht, harith,
      show List.replicate (rf4 m + 2) '*' = '*' :: '*' :: List.replicate (rf4 m) '*' from by
        rw [Nat.add_comm, List.replicate_add]; rfl,
      List.cons_append, List.cons_append]

theorem R4_runMap_aux : ∀ (l : List Char) (k : Nat),
    R4 (List.replicate k '*' ++ l) = starRunMap rf4 k l
  | [], k => by
    have h := R4_run k [] (by simp)
    rw [List.append_nil] at h
    rw [List.append_nil, h, show R4 [] = [] from rfl, List.append_nil, starRunMap]
  | c :: ls, k => by
    by_cases hc : c = '*'
    · subst hc
      rw [show List.replicate k '*' ++ '*' :: ls = List.replicate (k + 1) '*' ++ ls from by
        rw [List.replicate_succ', List.append_assoc]; rfl]
      rw [show starRunMap rf4 k ('*' :: ls) = starRunMap rf4 (k + 1) ls from by
        rw [starRunMap, if_pos rfl]]
      exact R4_runMap_aux ls (k + 1)
    · have h0 := R4_runMap_aux ls 0
      rw [show List.replicate 0 '*' ++ ls = ls from rfl] at h0
      rw [R4_run k (c :: ls) (by simpa using hc), R4_cons_nonstar ls hc, h0,
        starRunMap, if_neg hc]

theorem R4_runMap (l : List Char) : R4 l = starRunMap rf4 0 l := by
  have h := R4_runMap_aux l 0
  rwa [show List.replicate 0 '*' ++ l = l from rfl] at h

theorem R5_short : ∀ (l : List Char), l.length < 5 → R5 l = l
  | [], _ => rfl
  | [_], _ => rfl
  | [_, _], _ => rfl
  | [_, _, _], _ => rfl
  | [_, _, _, _], _ => rfl
  | _ :: _ :: _ :: _ :: _ :: _, h => by
    rw [List.length_cons, List.length_cons, List.length_cons, List.length_cons,
      List.length_cons] at h
    omega

theorem R5_step (x : Char) (xs : List Char)
    (h : ∃ c ∈ (x :: xs).take 5, c ≠ '*') : R5 (x :: xs) = x :: R5 xs :=
  match xs with
  | [] => rfl
  | [_] => rfl
  | [_, _] => rfl
  | [_, _, _] => rfl
  | b :: c :: d :: e :: rest => by
    have hcond : ¬(x = '*' ∧ b = '*' ∧ c = '*' ∧ d = '*' ∧ e = '*') := by
      intro ⟨h1, h2, h3, h4, h5⟩
      obtain ⟨cc, hmem, hne⟩ := h
      simp only [List.take_succ_cons, List.take_zero, List.mem_cons,
        List.not_mem_nil, or_false] at hmem
      rcases hmem with rfl | rfl | rfl | rfl | rfl
      · exact hne h1
      · exact hne h2
      · exact hne h3
      · exact hne h4
      · exact hne h5
    rw [R5, if_neg hcond]

theorem R5_cons_nonstar {d : Char} (ds : List Char) (hd : d ≠ '*') :
    R5 (d :: ds) = d :: R5 ds :=
  R5_step d ds ⟨d, by simp [List.take_succ_cons], hd⟩

theorem R5_run_small : ∀ (n : Nat) (t : List Char), n < 5 →
    (∀ c ∈ t.head?, c ≠ '*') →
    R5 (List.replicate n '*' ++ t) = List.replicate n '*' ++ R5 t
  | 0, _, _, _ => rfl
  | n + 1, [], _, _ => by
    rw [List.append_nil, show R5 [] = [] from rfl, List.append_nil]
    exact R5_short _ (by rw [List.length_replicate]; omega)
  | n + 1, d :: ds, hn, ht => by
    have hd : d ≠ '*' := ht d (by simp)
    rw [List.replicate_succ, List.cons_append,
      R5_step '*' _ ⟨d, by
        rw [← List.cons_append, ← List.replicate_succ]
        exact mem_take_append_replicate hn d ds, hd⟩,
      R5_run_small n (d :: ds) (by omega) ht, List.cons_append]

theorem R5_run : ∀ (n : Nat) (t : List Char), (∀ c ∈ t.head?, c ≠ '*') →
    R5 (List.replicate n '*' ++ t) = List.replicate (rf5 n) '*' ++ R5 t
  | 0, t, ht => R5_run_small 0 t (by omega) ht
  | 1, t, ht => R5_run_small 1 t (by omega) ht
  | 2, t, ht => R5_run_small 2 t (by omega) ht
  | 3, t, ht => R5_run_small 3 t (by omega) ht
  | 4, t, ht => R5_run_small 4 t (by omega) ht
  | m + 5, t, ht => by
    have harith : rf5 (m + 5) = rf5 m + 2 := by unfold rf5; omega
    rw [show List.replicate (m + 5) '*' ++ t = '*' :: '*' :: '*' :: '*' :: '*' ::
        (List.replicate m '*' ++ t) from by
      simp [List.replicate_succ]]
    rw [R5, if_pos ⟨rfl, rfl, rfl, rfl, rfl⟩, R5_run m t ht, harith,
      show List.replicate (rf5 m + 2) '*' = '*' :: '*' :: List.replicate (rf5 m) '*' from by
        rw [Nat.add_comm, List.replicate_add]; rfl,
      List.cons_append, List.cons_append]

theorem R5_runMap_aux : ∀ (l : List Char) (k : Nat),
    R5 (List.replicate k '*' ++ l) = starRunMap rf5 k l
  | [], k => by
    have h := R5_run k [] (by simp)
    rw [List.append_nil] at h
    rw [List.append_nil, h, show R5 [] = [] from rfl, List.append_nil, starRunMap]
  | c :: ls, k => by
    by_cases hc : c = '*'
    · subst hc
      rw [show List.replicate k '*' ++ '*' :: ls = List.replicate (k + 1) '*' ++ ls from by
        rw [List.replicate_succ', List.append_assoc]; rfl]
      rw [show starRunMap rf5 k ('*' :: ls) = starRunMap rf5 (k + 1) ls from by
        rw [starRunMap, if_pos rfl]]
      exact R5_runMap_aux ls (k + 1)
    · have h0 := R5_runMap_aux ls 0
      rw [show List.replicate 0 '*' ++ ls = ls from rfl] at h0
      rw [R5_run k (c :: ls) (by simpa using hc), R5_cons_nonstar ls hc, h0,
        starRunMap, if_neg hc]

theorem R5_runMap (l : List Char) : R5 l = starRunMap rf5 0 l := by
  have h := R5_runMap_aux l 0
  rwa [show List.replicate 0 '*' ++ l = l from rfl] at h

/-! ### Run maps compose -/

theorem starRunMap_replicate (f : Nat → Nat) : ∀ (m k : Nat),
    starRunMap f k (List.replicate m '*') = List.replicate (f (k + m)) '*'
  | 0, k => by rw [show List.replicate 0 '*' = ([] : List Char) from rfl, starRunMap, Nat.add_zero]
  | m + 1, k => by
    rw [List.replicate_succ, starRunMap, if_pos rfl, starRunMap_replicate f m (k + 1),
      show k + 1 + m = k + (m + 1) from by omega]

theorem starRunMap_append_replicate (f : Nat → Nat) : ∀ (m : Nat) (j : Nat) (rest : List Char),
    starRunMap f j (List.replicate m '*' ++ rest) = starRunMap f (j + m) rest
  | 0, j, rest => by rw [show List.replicate 0 '*' ++ rest = rest from rfl, Nat.add_zero]
  | m + 1, j, rest => by
    rw [List.replicate_succ, List.cons_append, starRunMap, if_pos rfl,
      starRunMap_append_replicate f m (j + 1) rest,
      show j + 1 + m = j + (m + 1) from by omega]

theorem starRunMap_cons_nonstar (f : Nat → Nat) (k : Nat) {d : Char} (ds : List Char)
    (hd : d ≠ '*') :
    starRunMap f k (d :: ds) = List.replicate (f k) '*' ++ d :: starRunMap f 0 ds := by
  rw [starRunMap, if_neg hd]

theorem starRunMap_comp_aux (f h : Nat → Nat) : ∀ (l : List Char) (k : Nat),
    starRunMap f 0 (starRunMap h k l) = starRunMap (fun n => f (h n)) k l
  | [], k => by
    rw [show starRunMap h k [] = List.replicate (h k) '*' from by rw [starRunMap],
      starRunMap_replicate f (h k) 0, Nat.zero_add,
      show starRunMap (fun n => f (h n)) k [] = List.replicate (f (h k)) '*' from by
        rw [starRunMap]]
  | c :: ls, k => by
    by_cases hc : c = '*'
    · subst hc
      rw [show starRunMap h k ('*' :: ls) = starRunMap h (k + 1) ls from by
        rw [starRunMap, if_pos rfl],
        show starRunMap (fun n => f (h n)) k ('*' :: ls) =
          starRunMap (fun n => f (h n)) (k + 1) ls from by rw [starRunMap, if_pos rfl]]
      exact starRunMap_comp_aux f h ls (k + 1)
    · rw [starRunMap_cons_nonstar h k ls hc,
        starRunMap_append_replicate f (h k) 0 _, Nat.zero_add,
        starRunMap_cons_nonstar f (h k) _ hc,
        starRunMap_comp_aux f h ls 0,
        starRunMap_cons_nonstar (fun n => f (h n)) k ls hc]

/-- The three replace calls of `clean_response_text`, in source order, act
on every string by rewriting each maximal asterisk run of length `n` to
`collapseRunLen n` asterisks. -/
theorem replace_chain_runMap (l : List Char) :
    R5 (R4 (R3 l)) = starRunMap collapseRunLen 0 l := by
  rw [R3_runMap l, R4_runMap (starRunMap rf3 0 l), starRunMap_comp_aux rf4 rf3 l 0,
    R5_runMap _, starRunMap_comp_aux rf5 (fun n => rf4 (rf3 n)) l 0]
  rfl

/-- The bullet rule at line start: a leading asterisk triple followed by a
non-asterisk becomes the bullet glyph and a space. -/
theorem Bgo_bullet (c : Char) (rest : List Char) (hc : c ≠ '*') :
    Bgo true ('*' :: '*' :: '*' :: c :: rest) =
      '•' :: ' ' :: c :: Bgo (decide (c = '\n')) rest := by
  rw [Bgo, if_pos ⟨rfl, rfl, rfl, rfl, hc⟩]

/-- C2 (amended): for every input string, the asterisk-collapsing pass (the
three `replace` calls, run in the order `'***'`, `'****'`, `'*****'`)
rewrites each maximal run of `n` consecutive asterisks to `collapseRunLen n`
asterisks, where `collapseRunLen` maps 3 to 2, 4 to 3 (not to 2: the
`'***'` replace runs first and shortens the run so the later replaces no
longer see it), and 5 to 2; the bullet rule then converts a leading
asterisk triple at line start followed by a non-asterisk to the bullet
glyph; and the later cleanup passes can modify the collapsed runs further,
e.g. `re.sub(r'\*\*\s*\*\*', '**')` merges two adjacent collapsed runs:
`clean_response_text "*** ***" = "**"`. -/
theorem clean_asterisk_run_spec :
    (∀ l : List Char, R5 (R4 (R3 l)) = starRunMap collapseRunLen 0 l) ∧
    collapseRunLen 3 = 2 ∧ collapseRunLen 4 = 3 ∧ collapseRunLen 5 = 2 ∧
    (∀ (c : Char) (rest : List Char), c ≠ '*' →
      Bgo true ('*' :: '*' :: '*' :: c :: rest) =
        '•' :: ' ' :: c :: Bgo (decide (c = '\n')) rest) ∧
    clean_response_text "a***b" = "a**b" ∧
    clean_response_text "a*****b" = "a**b" ∧
    clean_response_text "a****b" = "a***b" ∧
    clean_response_text "****x" = "\u2022 x" ∧
    clean_response_text "*** ***" = "**" :=
  ⟨replace_chain_runMap, by decide, by decide, by decide, Bgo_bullet,
   by decide, by decide, by decide, by decide, by decide⟩

/-! ## C1: idempotency of clean_response_text (amended) -/

/-- C1 counterexample: `clean_response_text` is not idempotent.  A run of
four asterisks becomes three on the first pass and two on the second, so
`clean(clean("****")) = "**" ≠ "***" = clean("****")`. -/
theorem clean_not_idempotent_cex :
    clean_response_text (clean_response_text "****") ≠ clean_response_text "****" ∧
    clean_response_text "****" = "***" ∧
    clean_response_text (clean_response_text "****") = "**" := by
  exact ⟨by decide, by decide, by decide⟩

/-! ### Star stages are the identity on asterisk-free text -/

theorem R3_id : ∀ (l : List Char), '*' ∉ l → R3 l = l
  | [], _ => rfl
  | [_], _ => rfl
  | [_, _], _ => rfl
  | a :: b :: c :: rest, h => by
    have ha : a ≠ '*' := fun e => h (e ▸ List.mem_cons_self a _)
    rw [R3, if_neg (fun hc => ha hc.1)]
    exact congrArg (a :: ·) (R3_id (b :: c :: rest)
      (fun hm => h (List.mem_cons_of_mem a hm)))

theorem R4_id : ∀ (l : List Char), '*' ∉ l → R4 l = l
  | [], _ => rfl
  | [_], _ => rfl
  | [_, _], _ => rfl
  | [_, _, _], _ => rfl
  | a :: b :: c :: d :: rest, h => by
    have ha : a ≠ '*' := fun e => h (e ▸ List.mem_cons_self a _)
    rw [R4, if_neg (fun hc => ha hc.1)]
    exact congrArg (a :: ·) (R4_id (b :: c :: d :: rest)
      (fun hm => h (List.mem_cons_of_mem a hm)))

theorem R5_id : ∀ (l : List Char), '*' ∉ l → R5 l = l
  | [], _ => rfl
  | [_], _ => rfl
  | [_, _], _ => rfl
  | [_, _, _], _ => rfl
  | [_, _, _, _], _ => rfl
  | a :: b :: c :: d :: e :: rest, h => by
    have ha : a ≠ '*' := fun hx => h (hx ▸ List.mem_cons_self a _)
    rw [R5, if_neg (fun hc => ha hc.1)]
    exact congrArg (a :: ·) (R5_id (b :: c :: d :: e :: rest)
      (fun hm => h (List.mem_cons_of_mem a hm)))

theorem Bgo_id : ∀ (l : List Char) (st : Bool), '*' ∉ l → Bgo st l = l
  | [], _, _ => rfl
  | [a], st, h => rfl
  | [a, b], st, h => rfl
  | [a, b, c], st, h => rfl
  | a :: b :: c :: d :: rest, st, h => by
    have ha : a ≠ '*' := fun e => h (e ▸ List.mem_cons_self a _)
    rw [Bgo, if_neg (fun hc => ha hc.2.1)]
    exact congrArg (a :: ·) (Bgo_id (b :: c :: d :: rest) _
      (fun hm => h (List.mem_cons_of_mem a hm)))

theorem starPairF_id : ∀ (n : Nat) (l : List Char), '*' ∉ l → starPairF n l = l
  | 0, _, _ => rfl
  | _ + 1, [], _ => rfl
  | _ + 1, [_], _ => rfl
  | n + 1, a :: b :: rest, h => by
    have ha : a ≠ '*' := fun e => h (e ▸ List.mem_cons_self a _)
    rw [starPairF, if_neg (fun hc => ha hc.1)]
    exact congrArg (a :: ·) (starPairF_id n (b :: rest)
      (fun hm => h (List.mem_cons_of_mem a hm)))

theorem starTrailF_id : ∀ (n : Nat) (l : List Char), '*' ∉ l → starTrailF n l = l
  | 0, _, _ => rfl
  | _ + 1, [], _ => rfl
  | _ + 1, [_], _ => rfl
  | n + 1, a :: b :: rest, h => by
    have ha : a ≠ '*' := fun e => h (e ▸ List.mem_cons_self a _)
    rw [starTrailF, if_neg (fun hc => ha hc.1)]
    exact congrArg (a :: ·) (starTrailF_id n (b :: rest)
      (fun hm => h (List.mem_cons_of_mem a hm)))

/-! ### Character provenance of each stage -/

theorem mem_flushRun {c : Char} {buf : List Char} (h : c ∈ flushRun buf) :
    c ∈ buf ∨ c = '\n' := by
  rw [flushRun] at h
  split at h
  · rcases List.mem_append.mp h with h1 | h2
    · exact Or.inl ((List.takeWhile_sublist _).mem h1)
    · rcases h2 with _ | ⟨_, h3⟩
      · exact Or.inr rfl
      · rcases h3 with _ | ⟨_, h4⟩
        · exact Or.inr rfl
        · have := List.mem_reverse.mp h4
          have := (List.takeWhile_sublist (fun c => c ≠ '\n')).mem this
          exact Or.inl (List.mem_reverse.mp this)
  · exact Or.inl h

theorem mem_W1go {c : Char} : ∀ {buf l : List Char}, c ∈ W1go buf l →
    c ∈ buf ∨ c ∈ l ∨ c = '\n'
  | buf, [], h => by
    have hf : c ∈ flushRun buf := by simpa [W1go] using h
    rcases mem_flushRun hf with h1 | h2
    · exact Or.inl h1
    · exact Or.inr (Or.inr h2)
  | buf, x :: xs, h => by
    rw [W1go] at h
    split at h
    · rcases mem_W1go h with h1 | h2 | h3
      · rcases List.mem_append.mp h1 with hb | hx
        · exact Or.inl hb
        · have : c = x := by simpa using hx
          exact Or.inr (Or.inl (this ▸ List.mem_cons_self _ _))
      · exact Or.inr (Or.inl (List.mem_cons_of_mem _ h2))
      · exact Or.inr (Or.inr h3)
    · rcases List.mem_append.mp h with h1 | h2
      · rcases mem_flushRun h1 with hb | hn
        · exact Or.inl hb
        · exact Or.inr (Or.inr hn)
      · rcases h2 with _ | ⟨_, h3⟩
        · exact Or.inr (Or.inl (List.mem_cons_self _ _))
        · rcases mem_W1go h3 with h4 | h5 | h6
          · cases h4
          · exact Or.inr (Or.inl (List.mem_cons_of_mem _ h5))
          · exact Or.inr (Or.inr h6)

theorem mem_W2go {c : Char} : ∀ {b : Bool} {l : List Char}, c ∈ W2go b l →
    c ∈ l ∨ c = ' '
  | _, [], h => by cases h
  | b, x :: xs, h => by
    rw [W2go] at h
    split at h
    · split at h
      · rcases mem_W2go h with h1 | h2
        · exact Or.inl (List.mem_cons_of_mem _ h1)
        · exact Or.inr h2
      · rcases h with _ | ⟨_, h3⟩
        · exact Or.inr rfl
        · rcases mem_W2go h3 with h1 | h2
          · exact Or.inl (List.mem_cons_of_mem _ h1)
          · exact Or.inr h2
    · rcases h with _ | ⟨_, h3⟩
      · exact Or.inl (List.mem_cons_self _ _)
      · rcases mem_W2go h3 with h1 | h2
        · exact Or.inl (List.mem_cons_of_mem _ h1)
        · exact Or.inr h2

theorem mem_W3go {c : Char} : ∀ {st : Bool} {l : List Char}, c ∈ W3go st l → c ∈ l
  | _, [], h => by cases h
  | st, x :: xs, h => by
    rw [W3go] at h
    split at h
    · exact List.mem_cons_of_mem _ (mem_W3go h)
    · rcases h with _ | ⟨_, h3⟩
      · exact List.mem_cons_self _ _
      · exact List.mem_cons_of_mem _ (mem_W3go h3)

theorem mem_Pgo {c : Char} : ∀ {l : List Char}, c ∈ Pgo l →
    c ∈ l ∨ c = '.' ∨ c = ' '
  | [], h => Or.inl h
  | [a], h => Or.inl h
  | a :: b :: rest, h => by
    rw [Pgo] at h
    split at h
    · rcases h with _ | ⟨_, h1⟩
      · exact Or.inr (Or.inl rfl)
      · rcases h1 with _ | ⟨_, h2⟩
        · exact Or.inr (Or.inr rfl)
        · rcases h2 with _ | ⟨_, h3⟩
          · exact Or.inl (List.mem_cons_of_mem _ (List.mem_cons_self _ _))
          · rcases mem_Pgo h3 with h4 | h5
            · exact Or.inl (List.mem_cons_of_mem _ (List.mem_cons_of_mem _ h4))
            · exact Or.inr h5
    · rcases h with _ | ⟨_, h3⟩
      · exact Or.inl (List.mem_cons_self _ _)
      · rcases mem_Pgo h3 with h4 | h5
        · exact Or.inl (List.mem_cons_of_mem _ h4)
        · exact Or.inr h5

theorem mem_stripB {c : Char} {l : List Char} (h : c ∈ stripB l) : c ∈ l := by
  rw [stripB] at h
  have h1 := List.mem_reverse.mp h
  have h2 := (List.dropWhile_sublist isSpace).mem h1
  have h3 := List.mem_reverse.mp h2
  exact (List.dropWhile_sublist isSpace).mem h3

/-! ### Head shapes of the whitespace stages -/

theorem W2go_true_head : ∀ (l : List Char), ∀ c ∈ (W2go true l).head?, isSpTab c = false
  | [], c, h => by cases h
  | x :: xs, c, h => by
    rw [W2go] at h
    split at h
    · exact W2go_true_head xs c (by simpa using h)
    · simp only [List.head?_cons, Option.mem_def, Option.some.injEq] at h
      subst h
      rename_i hcond
      simpa using hcond

theorem W3go_true_head : ∀ (l : List Char), ∀ c ∈ (W3go true l).head?, isSpace c = false
  | [], c, h => by cases h
  | x :: xs, c, h => by
    rw [W3go] at h
    split at h
    · exact W3go_true_head xs c h
    · simp only [List.head?_cons, Option.mem_def, Option.some.injEq] at h
      subst h
      rename_i hcond
      simpa using fun hx => hcond ⟨rfl, hx⟩

theorem W3go_false_head : ∀ (l : List Char), (W3go false l).head? = l.head?
  | [] => rfl
  | x :: xs => by
    rw [W3go]
    simp

theorem Pgo_head : ∀ (l : List Char), (Pgo l).head? = l.head?
  | [] => rfl
  | [a] => rfl
  | a :: b :: rest => by
    rw [Pgo]
    split
    · rename_i hcond
      simp [hcond.1]
    · simp

/-! ### Each whitespace stage establishes or preserves adjacency invariants -/

theorem W2go_no_tab : ∀ (b : Bool) (l : List Char), '\t' ∉ W2go b l
  | b, [] => fun h => by cases h
  | b, x :: xs => by
    rw [W2go]
    split
    · split
      · exact W2go_no_tab true xs
      · intro h
        rcases List.mem_cons.mp h with h1 | h2
        · exact absurd h1 (by decide)
        · exact W2go_no_tab true xs h2
    · rename_i hcond
      intro h
      rcases List.mem_cons.mp h with h1 | h2
      · rw [← h1] at hcond
        exact hcond (by decide)
      · exact W2go_no_tab false xs h2

theorem W2go_chain : ∀ (b : Bool) (l : List Char), List.Chain' noSS (W2go b l)
  | _, [] => List.chain'_nil
  | b, x :: xs => by
    rw [W2go]
    split
    · split
      · exact W2go_chain true xs
      · refine List.chain'_cons'.mpr ⟨?_, W2go_chain true xs⟩
        intro y hy ⟨_, hy'⟩
        have hhead := W2go_true_head xs y hy
        rw [hy'] at hhead
        exact absurd hhead (by decide)
    · rename_i hcond
      refine List.chain'_cons'.mpr ⟨?_, W2go_chain false xs⟩
      intro y hy ⟨hx, _⟩
      exact hcond (by rw [hx]; decide)

theorem W3go_chain_nl : ∀ (st : Bool) (l : List Char), List.Chain' nlOk (W3go st l)
  | _, [] => List.chain'_nil
  | st, x :: xs => by
    rw [W3go]
    split
    · exact W3go_chain_nl true xs
    · refine List.chain'_cons'.mpr ⟨?_, W3go_chain_nl _ xs⟩
      intro y hy hxnl
      subst hxnl
      rw [show (decide (('\n' : Char) = '\n')) = true from by decide] at hy
      exact W3go_true_head xs y hy

theorem W3go_chainSS : ∀ (st : Bool) (l : List Char),
    List.Chain' noSS l → List.Chain' noSS (W3go st l)
  | _, [], _ => List.chain'_nil
  | st, x :: xs, h => by
    rw [W3go]
    split
    · exact W3go_chainSS true xs h.tail
    · refine List.chain'_cons'.mpr ⟨?_, W3go_chainSS _ xs h.tail⟩
      intro y hy
      by_cases hx : x = ' '
      · rw [show (decide (x = '\n')) = false from by rw [hx]; decide] at hy
        rw [W3go_false_head xs] at hy
        exact (List.chain'_cons'.mp h).1 y hy
      · exact fun ⟨hx', _⟩ => hx hx'

theorem Pgo_chain_PU : ∀ (l : List Char), List.Chain' noPU (Pgo l)
  | [] => List.chain'_nil
  | [a] => List.chain'_singleton a
  | a :: b :: rest => by
    rw [Pgo]
    split
    · rename_i hcond
      obtain ⟨ha, hb⟩ := hcond
      refine List.chain'_cons'.mpr ⟨?_, List.chain'_cons'.mpr ⟨?_,
        List.chain'_cons'.mpr ⟨?_, Pgo_chain_PU rest⟩⟩⟩
      · intro y hy
        simp only [List.head?_cons, Option.mem_def, Option.some.injEq] at hy
        subst hy
        exact fun ⟨_, h2⟩ => absurd h2 (by decide)
      · intro y hy
        simp only [List.head?_cons, Option.mem_def, Option.some.injEq] at hy
        subst hy
        exact fun ⟨h1, _⟩ => absurd h1 (by decide)
      · intro y _ ⟨hbdot, _⟩
        rw [hbdot] at hb
        exact absurd hb (by decide)
    · rename_i hcond
      refine List.chain'_cons'.mpr ⟨?_, Pgo_chain_PU (b :: rest)⟩
      intro y hy
      rw [Pgo_head (b :: rest)] at hy
      simp only [List.head?_cons, Option.mem_def, Option.some.injEq] at hy
      subst hy
      exact fun ⟨h1, h2⟩ => hcond ⟨h1, h2⟩

theorem Pgo_chainSS : ∀ (l : List Char),
    List.Chain' noSS l → List.Chain' noSS (Pgo l)
  | [], _ => List.chain'_nil
  | [a], _ => List.chain'_singleton a
  | a :: b :: rest, h => by
    rw [Pgo]
    split
    · rename_i hcond
      obtain ⟨ha, hb⟩ := hcond
      have hbsp : b ≠ ' ' := fun hx => by rw [hx] at hb; exact absurd hb (by decide)
      refine List.chain'_cons'.mpr ⟨?_, List.chain'_cons'.mpr ⟨?_,
        List.chain'_cons'.mpr ⟨?_, Pgo_chainSS rest h.tail.tail⟩⟩⟩
      · intro y hy
        simp only [List.head?_cons, Option.mem_def, Option.some.injEq] at hy
        subst hy
        exact fun ⟨h1, _⟩ => absurd h1 (by decide)
      · intro y hy
        simp only [List.head?_cons, Option.mem_def, Option.some.injEq] at hy
        subst hy
        exact fun ⟨_, h2⟩ => hbsp h2
      · exact fun y _ ⟨h1, _⟩ => hbsp h1
    · refine List.chain'_cons'.mpr ⟨?_, Pgo_chainSS (b :: rest) h.tail⟩
      intro y hy
      rw [Pgo_head (b :: rest)] at hy
      exact (List.chain'_cons'.mp h).1 y hy

theorem Pgo_chainNl : ∀ (l : List Char),
    List.Chain' nlOk l → List.Chain' nlOk (Pgo l)
  | [], _ => List.chain'_nil
  | [a], _ => List.chain'_singleton a
  | a :: b :: rest, h => by
    rw [Pgo]
    split
    · rename_i hcond
      obtain ⟨ha, hb⟩ := hcond
      have hbnl : b ≠ '\n' := fun hx => by rw [hx] at hb; exact absurd hb (by decide)
      refine List.chain'_cons'.mpr ⟨?_, List.chain'_cons'.mpr ⟨?_,
        List.chain'_cons'.mpr ⟨?_, Pgo_chainNl rest h.tail.tail⟩⟩⟩
      · intro y hy hdot
        exact absurd hdot (by decide)
      · intro y hy hsp
        exact absurd hsp (by decide)
      · intro y _ hbnl'
        exact absurd hbnl' hbnl
    · refine List.chain'_cons'.mpr ⟨?_, Pgo_chainNl (b :: rest) h.tail⟩
      intro y hy
      rw [Pgo_head (b :: rest)] at hy
      exact (List.chain'_cons'.mp h).1 y hy

/-! ### dropWhile and strip facts -/

theorem chain'_dropWhile {R : Char → Char → Prop} (p : Char → Bool) :
    ∀ {l : List Char}, List.Chain' R l → List.Chain' R (l.dropWhile p)
  | [], h => h
  | x :: xs, h => by
    rw [List.dropWhile_cons]
    split
    · exact chain'_dropWhile p h.tail
    · exact h

theorem head_dropWhile (p : Char → Bool) :
    ∀ (l : List Char), ∀ c ∈ (l.dropWhile p).head?, p c = false
  | [], c, h => by cases h
  | x :: xs, c, h => by
    rw [List.dropWhile_cons] at h
    split at h
    · exact head_dropWhile p xs c h
    · simp only [List.head?_cons, Option.mem_def, Option.some.injEq] at h
      subst h
      rename_i hcond
      exact Bool.not_eq_true _ ▸ hcond

theorem getLast?_dropWhile (p : Char → Bool) :
    ∀ (l : List Char), l.dropWhile p = [] ∨ (l.dropWhile p).getLast? = l.getLast?
  | [] => Or.inl rfl
  | x :: xs => by
    rw [List.dropWhile_cons]
    split
    · rcases getLast?_dropWhile p xs with h | h
      · exact Or.inl h
      · cases xs with
        | nil =>
          exact Or.inl (by simp)
        | cons y ys =>
          right
          rw [h, List.getLast?_cons_cons]
    · exact Or.inr rfl

theorem chain'_stripB {R : Char → Char → Prop} {l : List Char}
    (h : List.Chain' R l) : List.Chain' R (stripB l) := by
  rw [stripB]
  have h1 : List.Chain' R (l.dropWhile isSpace) := chain'_dropWhile isSpace h
  have h2 : List.Chain' (flip R) ((l.dropWhile isSpace).reverse) :=
    List.chain'_reverse.mpr h1
  have h3 : List.Chain' (flip R) (((l.dropWhile isSpace).reverse).dropWhile isSpace) :=
    chain'_dropWhile isSpace h2
  exact List.chain'_reverse.mpr h3

theorem stripB_head (l : List Char) : ∀ c ∈ (stripB l).head?, isSpace c = false := by
  intro c hc
  rw [stripB, List.head?_reverse] at hc
  rcases getLast?_dropWhile isSpace ((l.dropWhile isSpace).reverse) with h | h
  · rw [h] at hc
    cases hc
  · rw [h, List.getLast?_reverse] at hc
    exact head_dropWhile isSpace l c hc

theorem stripB_last (l : List Char) : ∀ c ∈ (stripB l).getLast?, isSpace c = false := by
  intro c hc
  rw [stripB, List.getLast?_reverse] at hc
  exact head_dropWhile isSpace _ c hc

theorem dropWhile_id_of_head (p : Char → Bool) :
    ∀ (l : List Char), (∀ c ∈ l.head?, p c = false) → l.dropWhile p = l
  | [], _ => rfl
  | x :: xs, h => by
    rw [List.dropWhile_cons, if_neg]
    simp [h x (by simp)]

theorem stripB_id {l : List Char} (hh : ∀ c ∈ l.head?, isSpace c = false)
    (hl : ∀ c ∈ l.getLast?, isSpace c = false) : stripB l = l := by
  rw [stripB, dropWhile_id_of_head isSpace l hh]
  rw [dropWhile_id_of_head isSpace l.reverse
    (by intro c hc; rw [List.head?_reverse] at hc; exact hl c hc)]
  exact List.reverse_reverse l

/-! ### Fixed points of the whitespace stages -/

theorem chain_run_nl : ∀ {l : List Char}, List.Chain' nlOk l →
    (l.takeWhile isSpace).count '\n' ≤ 1
  | [], _ => by simp
  | x :: xs, h => by
    rw [List.takeWhile_cons]
    split
    · by_cases hx : x = '\n'
      · subst hx
        have : xs.takeWhile isSpace = [] := by
          cases xs with
          | nil => rfl
          | cons y ys =>
            rw [List.takeWhile_cons, if_neg]
            have := (List.chain'_cons'.mp h).1 y (by simp)
            simp [this rfl]
        simp [this, List.count_cons]
      · have h' : List.Chain' nlOk xs := h.tail
        have := chain_run_nl h'
        simp only [List.count_cons, beq_iff_eq, if_neg hx]
        omega
    · simp

theorem flushRun_id {buf : List Char} (h : buf.count '\n' ≤ 2) : flushRun buf = buf := by
  rw [flushRun, if_neg]
  omega

theorem W1go_id_aux : ∀ (l buf : List Char), List.Chain' nlOk l →
    buf.count '\n' + (l.takeWhile isSpace).count '\n' ≤ 2 →
    W1go buf l = buf ++ l
  | [], buf, _, hcount => by
    rw [W1go, flushRun_id (le_trans (Nat.le_add_right _ _) hcount)]
    simp
  | x :: xs, buf, hc, hcount => by
    rw [W1go]
    split
    · rename_i hsp
      rw [W1go_id_aux xs (buf ++ [x]) hc.tail]
      · simp
      · rw [List.takeWhile_cons, if_pos hsp] at hcount
        rw [List.count_append]
        simp only [List.count_cons, List.count_nil] at hcount ⊢
        omega
    · rename_i hsp
      rw [List.takeWhile_cons, if_neg hsp] at hcount
      rw [flushRun_id (by simpa using hcount)]
      rw [W1go_id_aux xs [] hc.tail
        (by simp only [List.count_nil, Nat.zero_add]
            exact le_trans (chain_run_nl hc.tail) (by omega))]
      simp

theorem W1go_id {l : List Char} (hc : List.Chain' nlOk l) : W1go [] l = l := by
  rw [W1go_id_aux l [] hc
    (by simp only [List.count_nil, Nat.zero_add]
        exact le_trans (chain_run_nl hc) (by omega))]
  simp

theorem W2go_id : ∀ (l : List Char) (b : Bool), '\t' ∉ l →
    List.Chain' noSS l → (b = true → ∀ c ∈ l.head?, isSpTab c = false) →
    W2go b l = l
  | [], _, _, _, _ => rfl
  | x :: xs, b, htab, hch, hb => by
    rw [W2go]
    split
    · rename_i hsp
      have hx : x = ' ' := by
        rcases (by simpa [isSpTab] using hsp : x = ' ' ∨ x = '\t') with h | h
        · exact h
        · exact absurd (h ▸ List.mem_cons_self x xs) htab
      cases b with
      | true => exact absurd (hb rfl x (by simp)) (by simp [hsp])
      | false =>
        rw [if_neg (by simp)]
        subst hx
        congr 1
        refine W2go_id xs true (fun hm => htab (List.mem_cons_of_mem _ hm)) hch.tail ?_
        intro _ c hch'
        have hns := (List.chain'_cons'.mp hch).1 c hch'
        have hcxs : c ∈ xs := List.mem_of_mem_head? hch'
        have hcs : c ≠ ' ' := fun hcs => hns ⟨rfl, hcs⟩
        have hct : c ≠ '\t' := fun hct => htab (List.mem_cons_of_mem _ (hct ▸ hcxs))
        simp [isSpTab, hcs, hct]
    · rename_i hsp
      congr 1
      exact W2go_id xs false (fun hm => htab (List.mem_cons_of_mem _ hm)) hch.tail
        (by intro h; cases h)

theorem W3go_id : ∀ (l : List Char) (st : Bool),
    (st = true → ∀ c ∈ l.head?, isSpace c = false) →
    List.Chain' nlOk l → W3go st l = l
  | [], _, _, _ => rfl
  | x :: xs, st, hst, hch => by
    rw [W3go]
    rw [if_neg]
    · congr 1
      refine W3go_id xs _ ?_ hch.tail
      intro hdec c hc
      have hx : x = '\n' := of_decide_eq_true hdec
      exact (List.chain'_cons'.mp hch).1 c hc (by exact hx)
    · intro ⟨h1, h2⟩
      exact absurd (hst h1 x (by simp)) (by simp [h2])

theorem Pgo_id : ∀ (l : List Char), List.Chain' noPU l → Pgo l = l
  | [], _ => rfl
  | [a], _ => rfl
  | a :: b :: rest, h => by
    rw [Pgo, if_neg]
    · exact congrArg (a :: ·) (Pgo_id (b :: rest) h.tail)
    · exact fun hc => (List.chain'_cons'.mp h).1 b (by simp) ⟨hc.1, hc.2⟩

/-! ### Assembly: idempotency of the cleaner on asterisk-free text -/

theorem cleanList_star_free (l : List Char) (h : '*' ∉ l) :
    cleanList l = stripB (Pgo (W3go true (W2go false (W1go [] l)))) := by
  have hw1 : '*' ∉ W1go [] l := by
    intro hm
    rcases mem_W1go hm with h1 | h2 | h3
    · cases h1
    · exact h h2
    · cases h3
  have hw2 : '*' ∉ W2go false (W1go [] l) := by
    intro hm
    rcases mem_W2go hm with h1 | h2
    · exact hw1 h1
    · cases h2
  have hw3 : '*' ∉ W3go true (W2go false (W1go [] l)) :=
    fun hm => hw2 (mem_W3go hm)
  rw [cleanList, R3_id l h, R4_id l h, R5_id l h, Bgo_id l true h,
    starPair, starPairF_id _ _ hw3, starTrail, starTrailF_id _ _ hw3]

theorem cleanList_idem (l : List Char) (h : '*' ∉ l) :
    cleanList (cleanList l) = cleanList l := by
  rw [cleanList_star_free l h]
  set y := stripB (Pgo (W3go true (W2go false (W1go [] l)))) with hy
  have hw2Tab : '\t' ∉ W2go false (W1go [] l) := W2go_no_tab false (W1go [] l)
  have hyStar : '*' ∉ y := by
    intro hm
    rcases mem_Pgo (mem_stripB hm) with h1 | h2 | h3
    · rcases mem_W2go (mem_W3go h1) with h4 | h5
      · rcases mem_W1go h4 with h6 | h7 | h8
        · cases h6
        · exact h h7
        · cases h8
      · cases h5
    · cases h2
    · cases h3
  have hyTab : '\t' ∉ y := by
    intro hm
    rcases mem_Pgo (mem_stripB hm) with h1 | h2 | h3
    · exact hw2Tab (mem_W3go h1)
    · cases h2
    · cases h3
  have hySS : List.Chain' noSS y :=
    chain'_stripB (Pgo_chainSS _ (W3go_chainSS true _ (W2go_chain false (W1go [] l))))
  have hyNl : List.Chain' nlOk y :=
    chain'_stripB (Pgo_chainNl _ (W3go_chain_nl true _))
  have hyPU : List.Chain' noPU y := chain'_stripB (Pgo_chain_PU _)
  have hyHead : ∀ c ∈ y.head?, isSpace c = false := stripB_head _
  have hyLast : ∀ c ∈ y.getLast?, isSpace c = false := stripB_last _
  rw [cleanList_star_free y hyStar, W1go_id hyNl,
    W2go_id y false hyTab hySS (fun hb => Bool.noConfusion hb),
    W3go_id y true (fun _ => hyHead) hyNl, Pgo_id y hyPU, stripB_id hyHead hyLast]

/-- C1 (amended): `clean_response_text` is idempotent on every string that
contains no asterisk; on strings with asterisk runs a second application can
collapse the runs further (see the counterexample `"****"`), because the
`replace('***','**')` pass shortens a four-asterisk run only to three. -/
theorem clean_idempotent_star_free (s : String) (h : '*' ∉ s.data) :
    clean_response_text (clean_response_text s) = clean_response_text s := by
  by_cases hs : s = ""
  · subst hs
    rfl
  · have hs' : clean_response_text s = String.mk (cleanList s.data) := by
      rw [clean_response_text, if_neg hs]
    by_cases hy : String.mk (cleanList s.data) = ""
    · rw [hs', hy]
      rfl
    · rw [hs', clean_response_text, if_neg hy]
      exact congrArg String.mk (cleanList_idem s.data h)

/-- Witness for C1 (amended) at a concrete asterisk-free string exercising
the whitespace, bullet-free and sentence-spacing rules. -/
theorem clean_idempotent_star_free_witness :
    ('*' ∉ "  Om.Shanti \n\n\n om \t shanti ".data) ∧
    clean_response_text (clean_response_text "  Om.Shanti \n\n\n om \t shanti ") =
      clean_response_text "  Om.Shanti \n\n\n om \t shanti " :=
  ⟨by decide, clean_idempotent_star_free "  Om.Shanti \n\n\n om \t shanti " (by decide)⟩
